import Mathlib

/-
Verification of the LDES time-series fragmentation engine
(`src/MongoDBIngestor.ts`, classes `MongoDBIngestor` and `TSMongoDBIngestor`).

Embedding conventions:
  * A timestamp (a JavaScript `Date`) is modelled by its `valueOf`, an `Int`
    of milliseconds since the epoch.  The source stores `toISOString()` of a
    date in relation values and in the `start` and `end` fields of bucket
    documents; for fixed-width ISO-8601 strings the lexicographic order used
    by the MongoDB sort coincides with the order of the underlying instants,
    so the model stores the instant itself and compares instants.
  * Bucket identifiers are produced by appending the empty string to
    `date.valueOf()` in the source, modelled by `toString` on the `Int` value.
  * The three MongoDB collections (meta, data, index) are modelled as lists
    of documents; `insertOne` appends, `findOne` returns the first match in
    insertion (natural) order, and `updateOne` updates the first match, which
    matches MongoDB semantics for queries without a sort.
  * Every operation threads an explicit `DBState`.  A thrown JavaScript
    exception is an `err` result; it carries the state reached so far, since
    writes already awaited are not rolled back by a later throw.
  * The JavaScript `end` field is named `endTS` because `end` is reserved in
    Lean.  The `pageSize` getter defaults to `Infinity` when `_pageSize` is
    unset; this is modelled by `Option Nat` with `none` for `Infinity`, and
    the fullness test `bucketSize + 1 > pageSize` is `false` at `none`
    because a finite count never exceeds `Infinity`.
-/

namespace LDESTS

/-- RelationType from the tree vocabulary; only these two are used here. -/
inductive RelationType where
  | GreaterThanOrEqualTo
  | LessThan
deriving DecidableEq, Repr

/-- IRelation from AbstractIngestor: an edge with a comparison operator, a
target value (an instant; the source stores its ISO rendering), a path and a
destination bucket identifier. -/
structure IRelation where
  type : RelationType
  value : Int
  path : String
  bucket : String
deriving DecidableEq, Repr

/-- MongoFragment: a bucket document of the index collection.  `start` and
`endTS` are absent (`none`) until set by an update; `endTS` models the
document field `end`. -/
structure MongoFragment where
  id : String
  streamId : String
  leaf : Bool
  relations : List IRelation
  count : Nat
  members : List String
  start : Option Int := none
  endTS : Option Int := none
deriving DecidableEq, Repr

/-- A document of the data collection: a stored member payload.  The source
stores `quadsToString(member.quads)`; serialization is abstracted and the
quad list is stored as is. -/
structure DataDoc where
  id : String
  data : List (String × Int)
deriving DecidableEq, Repr

/-- A document of the meta collection: stream metadata. -/
structure MetaDoc where
  id : String
  value : String
deriving DecidableEq, Repr

/-- The state of the three MongoDB collections used by the ingestor. -/
structure DBState where
  metaColl : List MetaDoc
  dataColl : List DataDoc
  index : List MongoFragment
deriving DecidableEq, Repr

/-- A member identifier (an RDF named node; only its string value is used). -/
structure MemberId where
  value : String
deriving DecidableEq, Repr

/-- A stream member: an identifier and its payload.  The payload quads are
modelled as path-to-instant bindings, which is all the Timestamp Extractor
reads from them. -/
structure Member where
  id : MemberId
  quads : List (String × Int)
deriving DecidableEq, Repr

/-- Window from AbstractIngestor (identifier plus optional member list and
optional start and end instants). -/
structure Window where
  identifier : String
  memberIdentifiers : Option (List String) := none
  start : Option Int := none
  endTS : Option Int := none
deriving DecidableEq, Repr

/-- The errors thrown by the source, one constructor per throw site, named
after the taxonomy of the specification. -/
inductive IngestErr where
  | configurationError
  | noBucketsFound
  | windowNotFound (id : String)
  | invalidWindow (id : String)
  | extractionError
  | missingMetadata
deriving DecidableEq, Repr

/-- Result of a stateful operation: both success and failure carry the
database state reached, since awaited writes persist across a later throw. -/
inductive Res (α : Type) where
  | ok (a : α) (st : DBState)
  | err (e : IngestErr) (st : DBState)
deriving DecidableEq, Repr

/-- The configuration state of a `TSMongoDBIngestor` instance. -/
structure TSMongoDBIngestor where
  sdsStreamIdentifier : String
  _pageSize : Option Nat := none
  _timestampPath : Option String := none
  _metadata : Option String := none
deriving DecidableEq, Repr

/-- The root bucket identifier: the instance field `root` is initialised to
the empty string and never reassigned. -/
def TSMongoDBIngestor.root (_i : TSMongoDBIngestor) : String := ""

/-- The `pageSize` getter: `this._pageSize ?? Infinity`, with `none`
standing for `Infinity`. -/
def pageSize (ing : TSMongoDBIngestor) : Option Nat := ing._pageSize

/-- The capacity trigger `bucketSize + 1 > this.pageSize` of `append`.
At `none` (`Infinity`) it is `false`: a finite count never exceeds it. -/
def isFull (ps : Option Nat) (n : Nat) : Bool :=
  match ps with
  | none => false
  | some p => decide (n + 1 > p)

/-- The MongoDB query `{ id: bucketIdentifier, streamId: sdsStreamIdentifier }`
on the index collection. -/
def matchesBucket (sid i : String) (f : MongoFragment) : Bool :=
  f.id == i && f.streamId == sid

/-- `findOne` on the index collection: first document matching id and
streamId in natural order. -/
def findOneFrag (sid i : String) (l : List MongoFragment) : Option MongoFragment :=
  l.find? (matchesBucket sid i)

/-- `updateOne`: apply the update to the first document matching the query,
leaving every other document unchanged. -/
def updateFirst (p : MongoFragment → Bool) (u : MongoFragment → MongoFragment) :
    List MongoFragment → List MongoFragment
  | [] => []
  | f :: fs => if p f then u f :: fs else f :: updateFirst p u fs

/-- The update `$push { relations: { $each: rels } }`. -/
def pushRelations (rels : List IRelation) (f : MongoFragment) : MongoFragment :=
  { f with relations := f.relations ++ rels }

/-- The update `$push { members: { $each: ids } }`. -/
def pushMembers (ids : List String) (f : MongoFragment) : MongoFragment :=
  { f with members := f.members ++ ids }

/-- MongoDBIngestor.storeMembers: insert one data document per member into
the data collection. -/
def storeMembers (_ing : TSMongoDBIngestor) (members : List Member) (st : DBState) : DBState :=
  { st with dataColl := st.dataColl ++ members.map (fun m => { id := m.id.value, data := m.quads }) }

/-- Modelled from the spec: `storeMember` is declared on AbstractIngestor,
which is not under src/; the Member Store contract of the specification
persists a single member payload, modelled as `storeMembers` on the
singleton list. -/
def storeMember (ing : TSMongoDBIngestor) (m : Member) (st : DBState) : DBState :=
  storeMembers ing [m] st

/-- MongoDBIngestor.createBucket: insert a fresh leaf bucket document with
empty relations and members and count zero. -/
def createBucket (ing : TSMongoDBIngestor) (bucketIdentifier : String) (st : DBState) : DBState :=
  { st with index := st.index ++
      [{ id := bucketIdentifier, streamId := ing.sdsStreamIdentifier, leaf := true,
         relations := [], count := 0, members := [] }] }

/-- MongoDBIngestor.addMemberstoBucket: push member identifiers onto the
matching bucket document. -/
def addMemberstoBucket (ing : TSMongoDBIngestor) (bucketIdentifier : String)
    (memberIDs : List String) (st : DBState) : DBState :=
  let ix := updateFirst (matchesBucket ing.sdsStreamIdentifier bucketIdentifier)
    (pushMembers memberIDs) st.index
  { st with index := ix }

/-- MongoDBIngestor.addRelationsToBucket: push relations onto the matching
bucket document. -/
def addRelationsToBucket (ing : TSMongoDBIngestor) (bucketIdentifier : String)
    (relations : List IRelation) (st : DBState) : DBState :=
  let ix := updateFirst (matchesBucket ing.sdsStreamIdentifier bucketIdentifier)
    (pushRelations relations) st.index
  { st with index := ix }

/-- MongoDBIngestor.bucketExists: `findOne` on the index collection is not
null. -/
def bucketExists (ing : TSMongoDBIngestor) (bucketIdentifier : String) (st : DBState) : Bool :=
  (findOneFrag ing.sdsStreamIdentifier bucketIdentifier st.index).isSome

/-- MongoDBIngestor.initialise: short-circuit when stream metadata already
exists, otherwise require a description and insert the metadata document.
The MongoDB connection handshake is outside the model. -/
def initialise (ing : TSMongoDBIngestor) (sdsMetadata : Option String) (st : DBState) :
    Res Unit :=
  if st.metaColl.any (fun m => m.id == ing.sdsStreamIdentifier) then .ok () st
  else
    match sdsMetadata with
    | none => .err .missingMetadata st
    | some v => .ok () { st with metaColl := st.metaColl ++
        [{ id := ing.sdsStreamIdentifier, value := v }] }

/-- The strict order on stored `start` fields used by the descending sort of
`getMostRecentWindow`: a document without the field sorts below every
document that has it, as in MongoDB. -/
def startLT : Option Int → Option Int → Bool
  | none, none => false
  | none, some _ => true
  | some _, none => false
  | some a, some b => decide (a < b)

/-- One comparison step of the descending-sort-take-first query: keep the
incumbent unless the next document has a strictly greater start, which
models an unspecified (first-in-natural-order) tie-break. -/
def betterStart (best : Option MongoFragment) (f : MongoFragment) : Option MongoFragment :=
  match best with
  | none => some f
  | some b => if startLT b.start f.start then some f else some b

/-- The query `find({streamId}).sort({start: -1}).limit(1).next()`: a
document of the stream with maximal `start`, or `none` when the stream has
no bucket. -/
def mostRecentFrag (sid : String) (l : List MongoFragment) : Option MongoFragment :=
  (l.filter (fun f => f.streamId == sid)).foldl betterStart none

/-- TSMongoDBIngestor.documentToWindow.  The source builds both `start` and
`end` of the window from `document.start`; the stored `end` field is not
read. -/
def documentToWindow (doc : MongoFragment) : Window :=
  { identifier := doc.id, memberIdentifiers := some doc.members,
    start := doc.start, endTS := doc.start }

/-- TSMongoDBIngestor.getMostRecentWindow: most recent bucket by `start`
descending, or a throw when the stream has no bucket. -/
def getMostRecentWindow (ing : TSMongoDBIngestor) (st : DBState) : Res Window :=
  match mostRecentFrag ing.sdsStreamIdentifier st.index with
  | none => .err .noBucketsFound st
  | some doc => .ok (documentToWindow doc) st

/-- TSMongoDBIngestor.bucketSize: member count of the bucket document, or a
throw when the bucket does not exist. -/
def bucketSize (ing : TSMongoDBIngestor) (window : Window) (st : DBState) : Res Nat :=
  match findOneFrag ing.sdsStreamIdentifier window.identifier st.index with
  | none => .err (.windowNotFound window.identifier) st
  | some bucket => .ok bucket.members.length st

/-- The `$set` document built by createWindow and updateWindow: `start` and
`end` are written only when present on the window (a JavaScript `Date`
object is truthy; a window built by `documentToWindow` from a document
without `start` holds an invalid date, modelled as `none`). -/
def setWindowParams (w : Window) (f : MongoFragment) : MongoFragment :=
  let f1 := match w.start with
    | some s => { f with start := some s }
    | none => f
  match w.endTS with
  | some e => { f1 with endTS := some e }
  | none => f1

/-- TSMongoDBIngestor.createWindow: create the bucket document, then set its
start and end fields from the window. -/
def createWindow (ing : TSMongoDBIngestor) (w : Window) (st : DBState) : DBState :=
  let st1 := createBucket ing w.identifier st
  let ix := updateFirst (matchesBucket ing.sdsStreamIdentifier w.identifier)
    (setWindowParams w) st1.index
  { st1 with index := ix }

/-- TSMongoDBIngestor.updateWindow: set start and end fields on the existing
bucket document. -/
def updateWindow (ing : TSMongoDBIngestor) (w : Window) (st : DBState) : DBState :=
  let ix := updateFirst (matchesBucket ing.sdsStreamIdentifier w.identifier)
    (setWindowParams w) st.index
  { st with index := ix }

/-- TSMongoDBIngestor.addWindowToRoot: throw when the window has no start,
otherwise push one greater-than-or-equal relation at the start instant onto
the root, on the configured timestamp path (the getter throws when the path
is not configured). -/
def addWindowToRoot (ing : TSMongoDBIngestor) (window : Window) (st : DBState) : Res Unit :=
  match window.start with
  | none => .err (.invalidWindow window.identifier) st
  | some s =>
    match ing._timestampPath with
    | none => .err .configurationError st
    | some tsPath =>
      .ok () (addRelationsToBucket ing ing.root
        [{ type := .GreaterThanOrEqualTo, value := s, path := tsPath,
           bucket := window.identifier }] st)

/-- Modelled from the spec: `extractDate` is imported from the external
ldes-snapshot package (the Timestamp Extractor collaborator); it returns the
instant found at the timestamp path in the member payload and fails when the
path yields no value. -/
def extractDate (quads : List (String × Int)) (path : String) : Except IngestErr Int :=
  match quads.lookup path with
  | none => .error .extractionError
  | some d => .ok d

/-- The `valueOf` of `new Date("2022-08-07T08:08:21Z")`, the hard-coded
first-window start instant of `instantiate`. -/
def bootstrapDate : Int := 1659859701000

/-- TSMongoDBIngestor.instantiate: initialise the stream metadata, fix the
configuration fields, and, when the root bucket does not exist yet, create
the root bucket and the first window and link the window from the root. -/
def instantiate (ing : TSMongoDBIngestor) (config : String) (st : DBState) :
    Res TSMongoDBIngestor :=
  match initialise ing (some config) st with
  | .err e st1 => .err e st1
  | .ok _ st1 =>
    let ing2 := { ing with _pageSize := some 50,
                           _timestampPath := some "http://www.w3.org/ns/sosa/resultTime",
                           _metadata := some config }
    if bucketExists ing2 ing2.root st1 then .ok ing2 st1
    else
      let st2 := createBucket ing2 ing2.root st1
      let firstWindow : Window :=
        { identifier := toString bootstrapDate, start := some bootstrapDate }
      let st3 := createWindow ing2 firstWindow st2
      match addWindowToRoot ing2 firstWindow st3 with
      | .err e st4 => .err e st4
      | .ok _ st4 => .ok ing2 st4

/-- TSMongoDBIngestor.append.  When the current bucket is full, split:
create a new window at the instant extracted from the incoming member, link
it from the root with a greater-than-or-equal relation, close the current
window at that instant and link it from the root with a less-than relation.
Otherwise store the member and push its identifier onto the current
bucket. -/
def append (ing : TSMongoDBIngestor) (member : Member) (st : DBState) : Res Unit :=
  match getMostRecentWindow ing st with
  | .err e st1 => .err e st1
  | .ok currentWindow st1 =>
    match bucketSize ing currentWindow st1 with
    | .err e st2 => .err e st2
    | .ok n st2 =>
      if isFull (pageSize ing) n then
        match ing._timestampPath with
        | none => .err .configurationError st2
        | some tsPath =>
          match extractDate member.quads tsPath with
          | .error e => .err e st2
          | .ok memberDate =>
            let newWindow : Window :=
              { identifier := toString memberDate, start := some memberDate }
            let st3 := createWindow ing newWindow st2
            match addWindowToRoot ing newWindow st3 with
            | .err e st4 => .err e st4
            | .ok _ st4 =>
              let currentWindow2 := { currentWindow with endTS := some memberDate }
              let st5 := updateWindow ing currentWindow2 st4
              .ok () (addRelationsToBucket ing ing.root
                [{ type := .LessThan, value := memberDate, path := tsPath,
                   bucket := currentWindow2.identifier }] st5)
      else
        let st3 := storeMember ing member st2
        .ok () (addMemberstoBucket ing currentWindow.identifier [member.id.value] st3)

/-- TSMongoDBIngestor.publish: append each member in input order, stopping
at the first failure. -/
def publish (ing : TSMongoDBIngestor) (members : List Member) (st : DBState) : Res Unit :=
  match members with
  | [] => .ok () st
  | m :: ms =>
    match append ing m st with
    | .err e st1 => .err e st1
    | .ok _ st1 => publish ing ms st1

/-! Helper lemmas about the store primitives. -/

lemma updateFirst_cons_pos {p : MongoFragment → Bool} {u : MongoFragment → MongoFragment}
    {f : MongoFragment} {fs : List MongoFragment} (hp : p f = true) :
    updateFirst p u (f :: fs) = u f :: fs := by
  simp [updateFirst, hp]

lemma updateFirst_cons_neg {p : MongoFragment → Bool} {u : MongoFragment → MongoFragment}
    {f : MongoFragment} {fs : List MongoFragment} (hp : p f = false) :
    updateFirst p u (f :: fs) = f :: updateFirst p u fs := by
  simp [updateFirst, hp]

lemma find_first_append_none {α : Type} {p : α → Bool} {l1 l2 : List α}
    (h : l1.find? p = none) : (l1 ++ l2).find? p = l2.find? p := by
  induction l1 with
  | nil => simp
  | cons f fs ih =>
    rw [List.find?_cons] at h
    rw [List.cons_append, List.find?_cons]
    cases hp : p f with
    | true => simp [hp] at h
    | false =>
      simp only [hp] at h ⊢
      exact ih h

lemma find_first_append_some {α : Type} {p : α → Bool} {l1 l2 : List α} {x : α}
    (h : l1.find? p = some x) : (l1 ++ l2).find? p = some x := by
  induction l1 with
  | nil => simp at h
  | cons f fs ih =>
    rw [List.find?_cons] at h
    rw [List.cons_append, List.find?_cons]
    cases hp : p f with
    | true => simpa [hp] using h
    | false =>
      simp only [hp] at h ⊢
      exact ih h

lemma find_first_eq_none {α : Type} {p : α → Bool} {l : List α}
    (h : ∀ x ∈ l, p x = false) : l.find? p = none := by
  induction l with
  | nil => simp
  | cons f fs ih =>
    rw [List.find?_cons]
    have hf := h f (by simp)
    simp only [hf]
    exact ih (fun x hx => h x (by simp [hx]))

lemma updateFirst_of_find_none {p : MongoFragment → Bool} {u : MongoFragment → MongoFragment}
    {l : List MongoFragment} (h : l.find? p = none) : updateFirst p u l = l := by
  induction l with
  | nil => rfl
  | cons f fs ih =>
    rw [List.find?_cons] at h
    cases hp : p f with
    | true => simp [hp] at h
    | false =>
      simp only [hp] at h
      rw [updateFirst_cons_neg hp, ih h]

lemma updateFirst_append_of_find_none {p : MongoFragment → Bool}
    {u : MongoFragment → MongoFragment} {l1 l2 : List MongoFragment}
    (h : l1.find? p = none) : updateFirst p u (l1 ++ l2) = l1 ++ updateFirst p u l2 := by
  induction l1 with
  | nil => simp
  | cons f fs ih =>
    rw [List.find?_cons] at h
    cases hp : p f with
    | true => simp [hp] at h
    | false =>
      simp only [hp] at h
      rw [List.cons_append, updateFirst_cons_neg hp, ih h, List.cons_append]

/-- An update preserves the document key (both id and streamId). -/
def keepsKey (u : MongoFragment → MongoFragment) : Prop :=
  ∀ f, (u f).id = f.id ∧ (u f).streamId = f.streamId

lemma keepsKey_pushRelations (rels : List IRelation) : keepsKey (pushRelations rels) := by
  intro f; exact ⟨rfl, rfl⟩

lemma keepsKey_pushMembers (ids : List String) : keepsKey (pushMembers ids) := by
  intro f; exact ⟨rfl, rfl⟩

lemma keepsKey_setWindowParams (w : Window) : keepsKey (setWindowParams w) := by
  intro f
  unfold setWindowParams
  cases w.start <;> cases w.endTS <;> exact ⟨rfl, rfl⟩

lemma matchesBucket_of_keepsKey {u : MongoFragment → MongoFragment} (hk : keepsKey u)
    (sid i : String) (f : MongoFragment) :
    matchesBucket sid i (u f) = matchesBucket sid i f := by
  unfold matchesBucket
  rw [(hk f).1, (hk f).2]

/-- A key-preserving update at a different key leaves every `findOne` at this
key unchanged. -/
lemma findOneFrag_updateFirst_other {sid i : String} {p : MongoFragment → Bool}
    {u : MongoFragment → MongoFragment} {l : List MongoFragment}
    (hk : keepsKey u) (hdisj : ∀ f, p f = true → matchesBucket sid i f = false) :
    findOneFrag sid i (updateFirst p u l) = findOneFrag sid i l := by
  induction l with
  | nil => rfl
  | cons f fs ih =>
    cases hp : p f with
    | true =>
      rw [updateFirst_cons_pos hp]
      unfold findOneFrag
      have hmf : matchesBucket sid i f = false := hdisj f hp
      have hmu : matchesBucket sid i (u f) = false := by
        rw [matchesBucket_of_keepsKey hk]; exact hmf
      rw [List.find?_cons_of_neg _ (by simp [hmu]),
        List.find?_cons_of_neg _ (by simp [hmf])]
    | false =>
      rw [updateFirst_cons_neg hp]
      unfold findOneFrag at ih ⊢
      cases hm : matchesBucket sid i f with
      | true =>
        rw [List.find?_cons_of_pos _ (by simp [hm]),
          List.find?_cons_of_pos _ (by simp [hm])]
      | false =>
        rw [List.find?_cons_of_neg _ (by simp [hm]),
          List.find?_cons_of_neg _ (by simp [hm])]
        exact ih

/-- A key-preserving update at the same key acts on the `findOne` result. -/
lemma findOneFrag_updateFirst_self {sid i : String}
    {u : MongoFragment → MongoFragment} {l : List MongoFragment} (hk : keepsKey u) :
    findOneFrag sid i (updateFirst (matchesBucket sid i) u l)
      = (findOneFrag sid i l).map u := by
  induction l with
  | nil => rfl
  | cons f fs ih =>
    cases hm : matchesBucket sid i f with
    | true =>
      rw [updateFirst_cons_pos hm]
      unfold findOneFrag
      have hmu : matchesBucket sid i (u f) = true := by
        rw [matchesBucket_of_keepsKey hk]; exact hm
      rw [List.find?_cons_of_pos _ (by simp [hmu]),
        List.find?_cons_of_pos _ (by simp [hm])]
      rfl
    | false =>
      rw [updateFirst_cons_neg hm]
      unfold findOneFrag at ih ⊢
      rw [List.find?_cons_of_neg _ (by simp [hm]),
        List.find?_cons_of_neg _ (by simp [hm])]
      exact ih

lemma matchesBucket_disjoint {sid i j : String} (hij : j ≠ i) :
    ∀ f, matchesBucket sid j f = true → matchesBucket sid i f = false := by
  intro f h
  unfold matchesBucket at h ⊢
  simp only [Bool.and_eq_true, beq_iff_eq] at h
  simp [h.1, h.2, hij]

/-- The member lists of the documents, in order, are untouched by an update
that does not change member lists. -/
lemma map_members_updateFirst {p : MongoFragment → Bool}
    {u : MongoFragment → MongoFragment} {l : List MongoFragment}
    (hm : ∀ f, (u f).members = f.members) :
    (updateFirst p u l).map MongoFragment.members = l.map MongoFragment.members := by
  induction l with
  | nil => rfl
  | cons f fs ih =>
    cases hp : p f with
    | true => rw [updateFirst_cons_pos hp]; simp [hm]
    | false => rw [updateFirst_cons_neg hp]; simp [ih]

lemma members_setWindowParams (w : Window) (f : MongoFragment) :
    (setWindowParams w f).members = f.members := by
  unfold setWindowParams
  cases w.start <;> cases w.endTS <;> rfl

lemma members_pushRelations (rels : List IRelation) (f : MongoFragment) :
    (pushRelations rels f).members = f.members := rfl

lemma endTS_setWindowParams {w : Window} {e : Int} (hw : w.endTS = some e)
    (f : MongoFragment) : (setWindowParams w f).endTS = some e := by
  unfold setWindowParams
  cases w.start <;> simp [hw]

/-- Every document of an updated list is an old document or the image of the
first match. -/
lemma updateFirst_mem_cases {p : MongoFragment → Bool}
    {u : MongoFragment → MongoFragment} {l : List MongoFragment} {g : MongoFragment}
    (h : g ∈ updateFirst p u l) :
    g ∈ l ∨ ∃ f, l.find? p = some f ∧ g = u f := by
  induction l with
  | nil => simp [updateFirst] at h
  | cons f fs ih =>
    cases hp : p f with
    | true =>
      rw [updateFirst_cons_pos hp] at h
      rcases List.mem_cons.mp h with h1 | h1
      · exact Or.inr ⟨f, List.find?_cons_of_pos _ (by simp [hp]), h1⟩
      · exact Or.inl (List.mem_cons_of_mem _ h1)
    | false =>
      rw [updateFirst_cons_neg hp] at h
      rcases List.mem_cons.mp h with h1 | h1
      · exact Or.inl (by rw [h1]; exact List.mem_cons_self _ _)
      · rcases ih h1 with h2 | ⟨f2, hf2, hg⟩
        · exact Or.inl (List.mem_cons_of_mem _ h2)
        · refine Or.inr ⟨f2, ?_, hg⟩
          rw [List.find?_cons_of_neg _ (by simp [hp])]
          exact hf2

/-! Lemmas about the descending-start selection. -/

lemma startLT_irrefl (a : Option Int) : startLT a a = false := by
  cases a <;> simp [startLT]

lemma startLT_trans {a b c : Option Int} (hab : startLT a b = true)
    (hbc : startLT b c = true) : startLT a c = true := by
  cases a <;> cases b <;> cases c <;> simp_all [startLT] <;> omega

lemma startLT_linear {a b c : Option Int} (hac : startLT a c = true) :
    startLT a b = true ∨ startLT b c = true := by
  cases a <;> cases b <;> cases c <;> simp_all [startLT] <;> omega

lemma betterStart_isSome (acc : Option MongoFragment) (f : MongoFragment) :
    (betterStart acc f).isSome := by
  cases acc with
  | none => rfl
  | some b => cases hbf : startLT b.start f.start <;> simp [betterStart, hbf]

lemma foldl_betterStart_ne_none (L : List MongoFragment) :
    ∀ acc f0, acc = some f0 → L.foldl betterStart acc ≠ none := by
  induction L with
  | nil =>
    intro acc f0 h
    rw [List.foldl_nil, h]
    exact fun hc => by cases hc
  | cons f L ih =>
    intro acc f0 h
    rw [List.foldl_cons]
    rcases Option.isSome_iff_exists.mp (betterStart_isSome acc f) with ⟨g, hg⟩
    exact ih (betterStart acc f) g hg

lemma foldl_betterStart_mem (L : List MongoFragment) :
    ∀ acc doc, L.foldl betterStart acc = some doc → acc = some doc ∨ doc ∈ L := by
  induction L with
  | nil => intro acc doc h; exact Or.inl h
  | cons f L ih =>
    intro acc doc h
    rw [List.foldl_cons] at h
    rcases ih (betterStart acc f) doc h with h1 | h1
    · cases acc with
      | none =>
        have hf : f = doc := by simpa [betterStart] using h1
        exact Or.inr (by rw [← hf]; exact List.mem_cons_self _ _)
      | some b =>
        cases hbf : startLT b.start f.start with
        | true =>
          have hf : f = doc := by simpa [betterStart, hbf] using h1
          exact Or.inr (by rw [← hf]; exact List.mem_cons_self _ _)
        | false =>
          have hb : some b = some doc := by simpa [betterStart, hbf] using h1
          exact Or.inl hb
    · exact Or.inr (List.mem_cons_of_mem _ h1)

lemma foldl_betterStart_max (L : List MongoFragment) :
    ∀ acc doc, L.foldl betterStart acc = some doc →
      (∀ f ∈ L, startLT doc.start f.start = false) ∧
      (∀ b, acc = some b → startLT doc.start b.start = false) := by
  induction L with
  | nil =>
    intro acc doc h
    rw [List.foldl_nil] at h
    refine ⟨by simp, fun b hb => ?_⟩
    rw [hb] at h
    cases h
    exact startLT_irrefl _
  | cons f L ih =>
    intro acc doc h
    rw [List.foldl_cons] at h
    have ihm := ih (betterStart acc f) doc h
    have hdf : startLT doc.start f.start = false := by
      cases acc with
      | none => exact ihm.2 f rfl
      | some b =>
        cases hbf : startLT b.start f.start with
        | true => exact ihm.2 f (by simp [betterStart, hbf])
        | false =>
          have hdb : startLT doc.start b.start = false :=
            ihm.2 b (by simp [betterStart, hbf])
          cases hdf2 : startLT doc.start f.start with
          | false => rfl
          | true =>
            rcases startLT_linear (b := b.start) hdf2 with h1 | h1
            · rw [hdb] at h1; cases h1
            · rw [hbf] at h1; cases h1
    refine ⟨fun g hg => ?_, fun b0 hb0 => ?_⟩
    · rcases List.mem_cons.mp hg with h1 | h1
      · rw [h1]; exact hdf
      · exact ihm.1 g h1
    · subst hb0
      cases hbf : startLT b0.start f.start with
      | true =>
        cases hdb : startLT doc.start b0.start with
        | false => rfl
        | true =>
          have hc : startLT doc.start f.start = true := startLT_trans hdb hbf
          rw [hdf] at hc
          cases hc
      | false => exact ihm.2 b0 (by simp [betterStart, hbf])

/-- When some bucket of the stream exists, the query returns a bucket of the
stream whose start no bucket of the stream strictly exceeds. -/
lemma mostRecentFrag_of_mem {sid : String} {l : List MongoFragment} {f0 : MongoFragment}
    (hmem : f0 ∈ l) (hs : f0.streamId = sid) :
    ∃ doc, mostRecentFrag sid l = some doc ∧ doc ∈ l ∧ doc.streamId = sid ∧
      ∀ f ∈ l, f.streamId = sid → startLT doc.start f.start = false := by
  unfold mostRecentFrag
  have hf0L : f0 ∈ l.filter (fun f => f.streamId == sid) :=
    List.mem_filter.mpr ⟨hmem, by simp [hs]⟩
  cases hLc : l.filter (fun f => f.streamId == sid) with
  | nil => rw [hLc] at hf0L; cases hf0L
  | cons g L2 =>
    rw [List.foldl_cons]
    have hbg : betterStart none g = some g := rfl
    rw [hbg]
    cases hres : L2.foldl betterStart (some g) with
    | none => exact absurd hres (foldl_betterStart_ne_none L2 (some g) g rfl)
    | some doc =>
      have hmem2 := foldl_betterStart_mem L2 (some g) doc hres
      have hmax := foldl_betterStart_max L2 (some g) doc hres
      have hdocL : doc ∈ l.filter (fun f => f.streamId == sid) := by
        rw [hLc]
        rcases hmem2 with h1 | h1
        · cases h1; exact List.mem_cons_self _ _
        · exact List.mem_cons_of_mem _ h1
      have hdocl := List.mem_filter.mp hdocL
      refine ⟨doc, rfl, hdocl.1, by simpa using hdocl.2, fun f hf hfs => ?_⟩
      have hfL : f ∈ l.filter (fun g2 => g2.streamId == sid) :=
        List.mem_filter.mpr ⟨hf, by simp [hfs]⟩
      rw [hLc] at hfL
      rcases List.mem_cons.mp hfL with h1 | h1
      · rw [h1]; exact hmax.2 g rfl
      · exact hmax.1 f h1

/-- Unfolding lemmas for the store projections. -/

lemma addRelationsToBucket_index (ing : TSMongoDBIngestor) (i : String)
    (rels : List IRelation) (st : DBState) :
    (addRelationsToBucket ing i rels st).index =
      updateFirst (matchesBucket ing.sdsStreamIdentifier i) (pushRelations rels) st.index := rfl

lemma addMemberstoBucket_index (ing : TSMongoDBIngestor) (i : String)
    (ids : List String) (st : DBState) :
    (addMemberstoBucket ing i ids st).index =
      updateFirst (matchesBucket ing.sdsStreamIdentifier i) (pushMembers ids) st.index := rfl

lemma updateWindow_index (ing : TSMongoDBIngestor) (w : Window) (st : DBState) :
    (updateWindow ing w st).index =
      updateFirst (matchesBucket ing.sdsStreamIdentifier w.identifier)
        (setWindowParams w) st.index := rfl

lemma createBucket_index (ing : TSMongoDBIngestor) (i : String) (st : DBState) :
    (createBucket ing i st).index =
      st.index ++ [⟨i, ing.sdsStreamIdentifier, true, [], 0, [], none, none⟩] := rfl

lemma createWindow_index (ing : TSMongoDBIngestor) (w : Window) (st : DBState) :
    (createWindow ing w st).index =
      updateFirst (matchesBucket ing.sdsStreamIdentifier w.identifier) (setWindowParams w)
        (createBucket ing w.identifier st).index := rfl

/-- Concrete inputs used by the witnesses below. -/
def ingA : TSMongoDBIngestor :=
  { sdsStreamIdentifier := "s", _pageSize := some 0, _timestampPath := some "p" }

def ingB : TSMongoDBIngestor :=
  { sdsStreamIdentifier := "s", _pageSize := some 2, _timestampPath := some "p" }

def ingC : TSMongoDBIngestor :=
  { sdsStreamIdentifier := "s", _pageSize := some 0, _timestampPath := none }

def rootFragA : MongoFragment :=
  { id := "", streamId := "s", leaf := true, relations := [], count := 0, members := [] }

def winFragA : MongoFragment :=
  { id := "w", streamId := "s", leaf := true, relations := [], count := 0, members := [],
    start := some 5 }

def stA : DBState := { metaColl := [], dataColl := [], index := [rootFragA, winFragA] }

def stE : DBState := { metaColl := [], dataColl := [], index := [] }

def memberA : Member := { id := { value := "m1" }, quads := [("p", 9)] }

def curA : Window := documentToWindow winFragA

/-- C5: the window built by documentToWindow takes both its start and its end
from the start field of the stored document; the stored end field is never
read back, and hence a window returned by getMostRecentWindow always has its
end equal to its start. -/
theorem documentToWindow_end_from_start :
    (∀ doc : MongoFragment,
      (documentToWindow doc).endTS = doc.start ∧
      (documentToWindow doc).start = doc.start ∧
      (documentToWindow doc).endTS = (documentToWindow doc).start ∧
      ∀ e, documentToWindow { doc with endTS := e } = documentToWindow doc) ∧
    (∀ (ing : TSMongoDBIngestor) (st st2 : DBState) (w : Window),
      getMostRecentWindow ing st = .ok w st2 → w.endTS = w.start) := by
  constructor
  · exact fun doc => ⟨rfl, rfl, rfl, fun e => rfl⟩
  · intro ing st st2 w h
    unfold getMostRecentWindow at h
    cases hm : mostRecentFrag ing.sdsStreamIdentifier st.index with
    | none => rw [hm] at h; cases h
    | some doc => rw [hm] at h; cases h; rfl

theorem documentToWindow_end_from_start_witness :
    getMostRecentWindow ingA stA = .ok curA stA ∧ curA.endTS = curA.start :=
  ⟨by decide, documentToWindow_end_from_start.2 ingA stA stA curA (by decide)⟩

/-- C6: getMostRecentWindow returns a bucket of the stream with maximal
start, and throws when the stream has no bucket. -/
theorem getMostRecentWindow_spec (ing : TSMongoDBIngestor) (st : DBState) :
    (st.index.filter (fun f => f.streamId == ing.sdsStreamIdentifier) = [] →
      getMostRecentWindow ing st = .err .noBucketsFound st) ∧
    (∀ f0 ∈ st.index, f0.streamId = ing.sdsStreamIdentifier →
      ∃ doc, doc ∈ st.index ∧ doc.streamId = ing.sdsStreamIdentifier ∧
        getMostRecentWindow ing st = .ok (documentToWindow doc) st ∧
        ∀ f ∈ st.index, f.streamId = ing.sdsStreamIdentifier →
          startLT doc.start f.start = false) := by
  constructor
  · intro he
    have hm : mostRecentFrag ing.sdsStreamIdentifier st.index = none := by
      unfold mostRecentFrag
      rw [he]
      rfl
    unfold getMostRecentWindow
    rw [hm]
  · intro f0 hf0 hs0
    rcases mostRecentFrag_of_mem hf0 hs0 with ⟨doc, hd, hdl, hds, hdm⟩
    refine ⟨doc, hdl, hds, ?_, hdm⟩
    unfold getMostRecentWindow
    rw [hd]

theorem getMostRecentWindow_spec_witness :
    getMostRecentWindow ingA stE = .err .noBucketsFound stE ∧
    ∃ doc, doc ∈ stA.index ∧ doc.streamId = ingA.sdsStreamIdentifier ∧
      getMostRecentWindow ingA stA = .ok (documentToWindow doc) stA ∧
      ∀ f ∈ stA.index, f.streamId = ingA.sdsStreamIdentifier →
        startLT doc.start f.start = false :=
  ⟨(getMostRecentWindow_spec ingA stE).1 (by decide),
   (getMostRecentWindow_spec ingA stA).2 winFragA (by decide) (by decide)⟩

/-- C10: bucketSize of an existing bucket is its member count; on a bucket
identifier absent from the store it throws NotFoundError, leaving the store
as it was. -/
theorem bucketSize_spec (ing : TSMongoDBIngestor) (w : Window) (st : DBState) :
    (∀ b, findOneFrag ing.sdsStreamIdentifier w.identifier st.index = some b →
      bucketSize ing w st = .ok b.members.length st) ∧
    (findOneFrag ing.sdsStreamIdentifier w.identifier st.index = none →
      bucketSize ing w st = .err (.windowNotFound w.identifier) st) := by
  constructor
  · intro b hb
    unfold bucketSize
    rw [hb]
  · intro hn
    unfold bucketSize
    rw [hn]

theorem bucketSize_spec_witness :
    bucketSize ingA curA stA = .ok winFragA.members.length stA ∧
    bucketSize ingA { identifier := "zzz" } stA = .err (.windowNotFound "zzz") stA :=
  ⟨(bucketSize_spec ingA curA stA).1 winFragA (by decide),
   (bucketSize_spec ingA { identifier := "zzz" } stA).2 (by decide)⟩

/-- C7: append on a full current bucket with no configured timestamp path
throws ConfigurationError before any write, returning the store exactly as
it was. -/
theorem append_full_no_path (ing : TSMongoDBIngestor) (member : Member) (st : DBState)
    (cur : Window) (n : Nat)
    (hcur : getMostRecentWindow ing st = .ok cur st)
    (hsize : bucketSize ing cur st = .ok n st)
    (hfull : isFull (pageSize ing) n = true)
    (htsp : ing._timestampPath = none) :
    append ing member st = .err .configurationError st := by
  unfold append
  rw [hcur]
  simp only [hsize, hfull, if_true, htsp]

theorem append_full_no_path_witness :
    getMostRecentWindow ingC stA = .ok curA stA ∧
    bucketSize ingC curA stA = .ok 0 stA ∧
    isFull (pageSize ingC) 0 = true ∧
    append ingC memberA stA = .err .configurationError stA :=
  ⟨by decide, by decide, by decide,
   append_full_no_path ingC memberA stA curA 0 (by decide) (by decide) (by decide) (by decide)⟩

/-- C8: bootstrap is idempotent: when the stream metadata exists, initialise
returns without writing, and when additionally the root bucket exists,
instantiate only sets the in-memory configuration and leaves the store
untouched: no bucket, window or relation is created. -/
theorem instantiate_idempotent (ing : TSMongoDBIngestor) (config : String) (st : DBState)
    (hmeta : st.metaColl.any (fun m => m.id == ing.sdsStreamIdentifier) = true)
    (hroot : (findOneFrag ing.sdsStreamIdentifier "" st.index).isSome = true) :
    instantiate ing config st =
      .ok { ing with _pageSize := some 50,
                     _timestampPath := some "http://www.w3.org/ns/sosa/resultTime",
                     _metadata := some config } st ∧
    ∀ md, initialise ing md st = .ok () st := by
  have hinit : ∀ md, initialise ing md st = .ok () st := by
    intro md
    unfold initialise
    rw [hmeta]
    rfl
  refine ⟨?_, hinit⟩
  unfold instantiate
  rw [hinit (some config)]
  have hbe : bucketExists
      { ing with _pageSize := some 50,
                 _timestampPath := some "http://www.w3.org/ns/sosa/resultTime",
                 _metadata := some config } "" st = true := hroot
  simp only [TSMongoDBIngestor.root, hbe, if_true]

def stMeta : DBState :=
  { metaColl := [{ id := "s", value := "cfg" }], dataColl := [], index := [rootFragA] }

theorem instantiate_idempotent_witness :
    stMeta.metaColl.any (fun m => m.id == ingA.sdsStreamIdentifier) = true ∧
    (findOneFrag ingA.sdsStreamIdentifier "" stMeta.index).isSome = true ∧
    instantiate ingA "cfg" stMeta =
      .ok { ingA with _pageSize := some 50,
                      _timestampPath := some "http://www.w3.org/ns/sosa/resultTime",
                      _metadata := some "cfg" } stMeta :=
  ⟨by decide, by decide,
   (instantiate_idempotent ingA "cfg" stMeta (by decide) (by decide)).1⟩

/-- C9: addWindowToRoot on a window with a start pushes exactly one
greater-than-or-equal relation onto the root, carrying the configured
timestamp path, the start instant as value and the window identifier as
destination, touching nothing else; on a window with no start it throws
InvalidWindowError and changes nothing. -/
theorem addWindowToRoot_spec (ing : TSMongoDBIngestor) (w : Window) (st : DBState) :
    (∀ tsp s rootFrag, ing._timestampPath = some tsp → w.start = some s →
      findOneFrag ing.sdsStreamIdentifier "" st.index = some rootFrag →
      ∃ st2, addWindowToRoot ing w st = .ok () st2 ∧
        findOneFrag ing.sdsStreamIdentifier "" st2.index =
          some { rootFrag with relations := rootFrag.relations ++
            [{ type := .GreaterThanOrEqualTo, value := s, path := tsp,
               bucket := w.identifier }] } ∧
        (∀ i, i ≠ "" → findOneFrag ing.sdsStreamIdentifier i st2.index =
          findOneFrag ing.sdsStreamIdentifier i st.index) ∧
        st2.dataColl = st.dataColl ∧ st2.metaColl = st.metaColl) ∧
    (w.start = none →
      addWindowToRoot ing w st = .err (.invalidWindow w.identifier) st) := by
  constructor
  · intro tsp s rootFrag htsp hstart hroot
    refine ⟨addRelationsToBucket ing ""
      [{ type := .GreaterThanOrEqualTo, value := s, path := tsp,
         bucket := w.identifier }] st, ?_, ?_, ?_, rfl, rfl⟩
    · unfold addWindowToRoot
      rw [hstart, htsp]
      rfl
    · rw [addRelationsToBucket_index,
        findOneFrag_updateFirst_self (keepsKey_pushRelations _), hroot]
      rfl
    · intro i hi
      rw [addRelationsToBucket_index]
      exact findOneFrag_updateFirst_other (keepsKey_pushRelations _)
        (matchesBucket_disjoint (fun h => hi h.symm))
  · intro hstart
    unfold addWindowToRoot
    rw [hstart]

theorem addWindowToRoot_spec_witness :
    (∃ st2, addWindowToRoot ingA { identifier := "x", start := some 7 } stA = .ok () st2 ∧
      findOneFrag ingA.sdsStreamIdentifier "" st2.index =
        some { rootFragA with relations := rootFragA.relations ++
          [{ type := .GreaterThanOrEqualTo, value := 7, path := "p", bucket := "x" }] } ∧
      (∀ i, i ≠ "" → findOneFrag ingA.sdsStreamIdentifier i st2.index =
        findOneFrag ingA.sdsStreamIdentifier i stA.index) ∧
      st2.dataColl = stA.dataColl ∧ st2.metaColl = stA.metaColl) ∧
    addWindowToRoot ingA { identifier := "y" } stA = .err (.invalidWindow "y") stA :=
  ⟨(addWindowToRoot_spec ingA { identifier := "x", start := some 7 } stA).1
      "p" 7 rootFragA (by decide) (by decide) (by decide),
   (addWindowToRoot_spec ingA { identifier := "y" } stA).2 (by decide)⟩

/-! The two branches of append as equations. -/

/-- The split branch of append, as one equation: create the new window at
the extracted instant, push the greater-than-or-equal link onto the root,
close the current window at the instant, push the less-than link onto the
root. -/
lemma append_split_eq (ing : TSMongoDBIngestor) (member : Member) (st : DBState)
    (cur : Window) (n : Nat) (tsp : String) (d : Int)
    (hcur : getMostRecentWindow ing st = .ok cur st)
    (hsize : bucketSize ing cur st = .ok n st)
    (hfull : isFull (pageSize ing) n = true)
    (htsp : ing._timestampPath = some tsp)
    (hd : extractDate member.quads tsp = .ok d) :
    append ing member st =
      .ok () (addRelationsToBucket ing ""
        [{ type := .LessThan, value := d, path := tsp, bucket := cur.identifier }]
        (updateWindow ing { cur with endTS := some d }
          (addRelationsToBucket ing ""
            [{ type := .GreaterThanOrEqualTo, value := d, path := tsp,
               bucket := toString d }]
            (createWindow ing { identifier := toString d, start := some d } st)))) := by
  unfold append
  rw [hcur]
  simp only [hsize, hfull, if_true, htsp, hd]
  unfold addWindowToRoot
  simp only [htsp]
  rfl

/-- The non-split branch of append, as one equation: store the member
payload, then push its identifier onto the current bucket. -/
lemma append_nosplit_eq (ing : TSMongoDBIngestor) (member : Member) (st : DBState)
    (cur : Window) (n : Nat)
    (hcur : getMostRecentWindow ing st = .ok cur st)
    (hsize : bucketSize ing cur st = .ok n st)
    (hnotfull : isFull (pageSize ing) n = false) :
    append ing member st =
      .ok () (addMemberstoBucket ing cur.identifier [member.id.value]
        (storeMember ing member st)) := by
  unfold append
  rw [hcur]
  simp only [hsize, hnotfull, Bool.false_eq_true, if_false]

lemma map_relations_updateFirst {p : MongoFragment → Bool}
    {u : MongoFragment → MongoFragment} {l : List MongoFragment}
    (hr : ∀ f, (u f).relations = f.relations) :
    (updateFirst p u l).map MongoFragment.relations = l.map MongoFragment.relations := by
  induction l with
  | nil => rfl
  | cons f fs ih =>
    cases hp : p f with
    | true => rw [updateFirst_cons_pos hp]; simp [hr]
    | false => rw [updateFirst_cons_neg hp]; simp [ih]

/-- C1: when the current bucket is full and a timestamp path is configured,
append creates a new bucket named by the stringified split instant with the
split instant as start, pushes onto the root a greater-than-or-equal
relation at the split instant pointing at the new bucket and a less-than
relation at the same split instant pointing at the old current bucket, and
sets the end of the old current bucket to the split instant — a matched pair of
relations at one common boundary value. -/
theorem append_split_spec (ing : TSMongoDBIngestor) (member : Member) (st : DBState)
    (cur : Window) (n : Nat) (tsp : String) (d : Int) (rootFrag : MongoFragment)
    (hcur : getMostRecentWindow ing st = .ok cur st)
    (hsize : bucketSize ing cur st = .ok n st)
    (hfull : isFull (pageSize ing) n = true)
    (htsp : ing._timestampPath = some tsp)
    (hd : extractDate member.quads tsp = .ok d)
    (hroot : findOneFrag ing.sdsStreamIdentifier "" st.index = some rootFrag)
    (hfresh : ∀ f ∈ st.index, matchesBucket ing.sdsStreamIdentifier (toString d) f = false)
    (hcr : cur.identifier ≠ "") (hcn : cur.identifier ≠ toString d)
    (hnr : toString d ≠ "") :
    ∃ st2, append ing member st = .ok () st2 ∧
      findOneFrag ing.sdsStreamIdentifier (toString d) st2.index =
        some ⟨toString d, ing.sdsStreamIdentifier, true, [], 0, [], some d, none⟩ ∧
      findOneFrag ing.sdsStreamIdentifier "" st2.index =
        some { rootFrag with relations := rootFrag.relations ++
          [⟨.GreaterThanOrEqualTo, d, tsp, toString d⟩,
           ⟨.LessThan, d, tsp, cur.identifier⟩] } ∧
      ∃ oldFrag, findOneFrag ing.sdsStreamIdentifier cur.identifier st2.index = some oldFrag ∧
        oldFrag.endTS = some d := by
  have heq := append_split_eq ing member st cur n tsp d hcur hsize hfull htsp hd
  have hIx : (addRelationsToBucket ing ""
        [{ type := .LessThan, value := d, path := tsp, bucket := cur.identifier }]
        (updateWindow ing { cur with endTS := some d }
          (addRelationsToBucket ing ""
            [{ type := .GreaterThanOrEqualTo, value := d, path := tsp,
               bucket := toString d }]
            (createWindow ing { identifier := toString d, start := some d } st)))).index
      = updateFirst (matchesBucket ing.sdsStreamIdentifier "")
          (pushRelations [⟨.LessThan, d, tsp, cur.identifier⟩])
          (updateFirst (matchesBucket ing.sdsStreamIdentifier cur.identifier)
            (setWindowParams { cur with endTS := some d })
            (updateFirst (matchesBucket ing.sdsStreamIdentifier "")
              (pushRelations [⟨.GreaterThanOrEqualTo, d, tsp, toString d⟩])
              (updateFirst (matchesBucket ing.sdsStreamIdentifier (toString d))
                (setWindowParams { identifier := toString d, start := some d })
                (st.index ++ [⟨toString d, ing.sdsStreamIdentifier, true, [], 0,
                  [], none, none⟩])))) := rfl
  refine ⟨_, heq, ?_, ?_, ?_⟩
  · rw [hIx,
      findOneFrag_updateFirst_other (keepsKey_pushRelations _)
        (matchesBucket_disjoint (Ne.symm hnr)),
      findOneFrag_updateFirst_other (keepsKey_setWindowParams _)
        (matchesBucket_disjoint hcn),
      findOneFrag_updateFirst_other (keepsKey_pushRelations _)
        (matchesBucket_disjoint (Ne.symm hnr)),
      findOneFrag_updateFirst_self (keepsKey_setWindowParams _)]
    unfold findOneFrag
    rw [find_first_append_none (find_first_eq_none hfresh),
      List.find?_cons_of_pos _ (by simp [matchesBucket])]
    rfl
  · rw [hIx,
      findOneFrag_updateFirst_self (keepsKey_pushRelations _),
      findOneFrag_updateFirst_other (keepsKey_setWindowParams _)
        (matchesBucket_disjoint hcr),
      findOneFrag_updateFirst_self (keepsKey_pushRelations _),
      findOneFrag_updateFirst_other (keepsKey_setWindowParams _)
        (matchesBucket_disjoint hnr)]
    unfold findOneFrag
    rw [find_first_append_some hroot]
    simp [pushRelations]
  · have hcf : ∃ curFrag, findOneFrag ing.sdsStreamIdentifier cur.identifier st.index
        = some curFrag := by
      unfold bucketSize at hsize
      cases hf : findOneFrag ing.sdsStreamIdentifier cur.identifier st.index with
      | none => rw [hf] at hsize; cases hsize
      | some b => exact ⟨b, rfl⟩
    rcases hcf with ⟨curFrag, hcfind⟩
    refine ⟨setWindowParams { cur with endTS := some d } curFrag, ?_,
      endTS_setWindowParams rfl curFrag⟩
    rw [hIx,
      findOneFrag_updateFirst_other (keepsKey_pushRelations _)
        (matchesBucket_disjoint (Ne.symm hcr)),
      findOneFrag_updateFirst_self (keepsKey_setWindowParams _),
      findOneFrag_updateFirst_other (keepsKey_pushRelations _)
        (matchesBucket_disjoint (Ne.symm hcr)),
      findOneFrag_updateFirst_other (keepsKey_setWindowParams _)
        (matchesBucket_disjoint (Ne.symm hcn))]
    unfold findOneFrag
    rw [find_first_append_some hcfind]
    rfl

theorem append_split_spec_witness :
    isFull (pageSize ingA) 0 = true ∧
    extractDate memberA.quads "p" = .ok 9 ∧
    ∃ st2, append ingA memberA stA = .ok () st2 ∧
      findOneFrag ingA.sdsStreamIdentifier (toString (9 : Int)) st2.index =
        some ⟨toString (9 : Int), ingA.sdsStreamIdentifier, true, [], 0, [], some 9, none⟩ ∧
      findOneFrag ingA.sdsStreamIdentifier "" st2.index =
        some { rootFragA with relations := rootFragA.relations ++
          [⟨.GreaterThanOrEqualTo, 9, "p", toString (9 : Int)⟩,
           ⟨.LessThan, 9, "p", curA.identifier⟩] } ∧
      ∃ oldFrag, findOneFrag ingA.sdsStreamIdentifier curA.identifier st2.index
          = some oldFrag ∧
        oldFrag.endTS = some 9 :=
  ⟨by decide, rfl,
   append_split_spec ingA memberA stA curA 0 "p" 9 rootFragA (by decide) (by decide)
     (by decide) (by decide) rfl (by decide) (by decide) (by decide)
     (by decide) (by decide)⟩

/-- C3: a splitting append uses the triggering member only for the boundary:
the member store is untouched and every existing bucket keeps exactly its
member list, the one new bucket being empty. -/
theorem append_split_frame (ing : TSMongoDBIngestor) (member : Member) (st : DBState)
    (cur : Window) (n : Nat) (tsp : String) (d : Int)
    (hcur : getMostRecentWindow ing st = .ok cur st)
    (hsize : bucketSize ing cur st = .ok n st)
    (hfull : isFull (pageSize ing) n = true)
    (htsp : ing._timestampPath = some tsp)
    (hd : extractDate member.quads tsp = .ok d) :
    ∃ st2, append ing member st = .ok () st2 ∧
      st2.dataColl = st.dataColl ∧ st2.metaColl = st.metaColl ∧
      st2.index.map MongoFragment.members = st.index.map MongoFragment.members ++ [[]] := by
  have heq := append_split_eq ing member st cur n tsp d hcur hsize hfull htsp hd
  refine ⟨_, heq, rfl, rfl, ?_⟩
  show (updateFirst (matchesBucket ing.sdsStreamIdentifier "")
      (pushRelations [⟨.LessThan, d, tsp, cur.identifier⟩])
      (updateFirst (matchesBucket ing.sdsStreamIdentifier cur.identifier)
        (setWindowParams { cur with endTS := some d })
        (updateFirst (matchesBucket ing.sdsStreamIdentifier "")
          (pushRelations [⟨.GreaterThanOrEqualTo, d, tsp, toString d⟩])
          (updateFirst (matchesBucket ing.sdsStreamIdentifier (toString d))
            (setWindowParams { identifier := toString d, start := some d })
            (st.index ++ [⟨toString d, ing.sdsStreamIdentifier, true, [], 0,
              [], none, none⟩]))))).map MongoFragment.members
    = st.index.map MongoFragment.members ++ [[]]
  rw [map_members_updateFirst (members_pushRelations _),
    map_members_updateFirst (members_setWindowParams _),
    map_members_updateFirst (members_pushRelations _),
    map_members_updateFirst (members_setWindowParams _)]
  simp

theorem append_split_frame_witness :
    isFull (pageSize ingA) 0 = true ∧
    ∃ st2, append ingA memberA stA = .ok () st2 ∧
      st2.dataColl = stA.dataColl ∧ st2.metaColl = stA.metaColl ∧
      st2.index.map MongoFragment.members = stA.index.map MongoFragment.members ++ [[]] :=
  ⟨by decide,
   append_split_frame ingA memberA stA curA 0 "p" 9 (by decide) (by decide)
     (by decide) (by decide) rfl⟩

/-- C4: an append under capacity stores exactly the member payload in the
member store and appends exactly the member identifier to the current
bucket, touching no other bucket and no relation list. -/
theorem append_nosplit_spec (ing : TSMongoDBIngestor) (member : Member) (st : DBState)
    (cur : Window) (n : Nat)
    (hcur : getMostRecentWindow ing st = .ok cur st)
    (hsize : bucketSize ing cur st = .ok n st)
    (hnotfull : isFull (pageSize ing) n = false) :
    ∃ st2 curFrag, append ing member st = .ok () st2 ∧
      findOneFrag ing.sdsStreamIdentifier cur.identifier st.index = some curFrag ∧
      curFrag.members.length = n ∧
      st2.dataColl = st.dataColl ++ [⟨member.id.value, member.quads⟩] ∧
      st2.metaColl = st.metaColl ∧
      findOneFrag ing.sdsStreamIdentifier cur.identifier st2.index =
        some { curFrag with members := curFrag.members ++ [member.id.value] } ∧
      (∀ i, i ≠ cur.identifier →
        findOneFrag ing.sdsStreamIdentifier i st2.index =
          findOneFrag ing.sdsStreamIdentifier i st.index) ∧
      st2.index.map MongoFragment.relations = st.index.map MongoFragment.relations := by
  have hcf : ∃ curFrag, findOneFrag ing.sdsStreamIdentifier cur.identifier st.index
      = some curFrag ∧ curFrag.members.length = n := by
    unfold bucketSize at hsize
    cases hf : findOneFrag ing.sdsStreamIdentifier cur.identifier st.index with
    | none => rw [hf] at hsize; cases hsize
    | some b =>
      rw [hf] at hsize
      cases hsize
      exact ⟨b, rfl, rfl⟩
  rcases hcf with ⟨curFrag, hcfind, hlen⟩
  have heq := append_nosplit_eq ing member st cur n hcur hsize hnotfull
  refine ⟨_, curFrag, heq, hcfind, hlen, rfl, rfl, ?_, ?_, ?_⟩
  · show findOneFrag ing.sdsStreamIdentifier cur.identifier
      (updateFirst (matchesBucket ing.sdsStreamIdentifier cur.identifier)
        (pushMembers [member.id.value]) st.index) = _
    rw [findOneFrag_updateFirst_self (keepsKey_pushMembers _), hcfind]
    rfl
  · intro i hi
    show findOneFrag ing.sdsStreamIdentifier i
      (updateFirst (matchesBucket ing.sdsStreamIdentifier cur.identifier)
        (pushMembers [member.id.value]) st.index) = _
    exact findOneFrag_updateFirst_other (keepsKey_pushMembers _)
      (matchesBucket_disjoint (Ne.symm hi))
  · show (updateFirst (matchesBucket ing.sdsStreamIdentifier cur.identifier)
        (pushMembers [member.id.value]) st.index).map MongoFragment.relations = _
    exact map_relations_updateFirst (fun f => rfl)

theorem append_nosplit_spec_witness :
    isFull (pageSize ingB) 0 = false ∧
    ∃ st2 curFrag, append ingB memberA stA = .ok () st2 ∧
      findOneFrag ingB.sdsStreamIdentifier curA.identifier stA.index = some curFrag ∧
      curFrag.members.length = 0 ∧
      st2.dataColl = stA.dataColl ++ [⟨memberA.id.value, memberA.quads⟩] ∧
      st2.metaColl = stA.metaColl ∧
      findOneFrag ingB.sdsStreamIdentifier curA.identifier st2.index =
        some { curFrag with members := curFrag.members ++ [memberA.id.value] } ∧
      (∀ i, i ≠ curA.identifier →
        findOneFrag ingB.sdsStreamIdentifier i st2.index =
          findOneFrag ingB.sdsStreamIdentifier i stA.index) ∧
      st2.index.map MongoFragment.relations = stA.index.map MongoFragment.relations :=
  ⟨by decide,
   append_nosplit_spec ingB memberA stA curA 0 (by decide) (by decide) (by decide)⟩

/-! The capacity invariant. -/

/-- The database state reached by an operation, whether it returned or
threw. -/
def Res.state {α : Type} : Res α → DBState
  | .ok _ st => st
  | .err _ st => st

/-- Every bucket of the stream holds at most P members. -/
def capBound (P : Nat) (st : DBState) : Prop :=
  ∀ f ∈ st.index, f.members.length ≤ P

lemma updateFirst_forall {Q : MongoFragment → Prop} {p : MongoFragment → Bool}
    {u : MongoFragment → MongoFragment} (hu : ∀ f, Q f → Q (u f)) :
    ∀ l : List MongoFragment, (∀ f ∈ l, Q f) → ∀ g ∈ updateFirst p u l, Q g := by
  intro l
  induction l with
  | nil => intro _ g hg; simp [updateFirst] at hg
  | cons f fs ih =>
    intro hl g hg
    cases hp : p f with
    | true =>
      rw [updateFirst_cons_pos hp] at hg
      rcases List.mem_cons.mp hg with h1 | h1
      · rw [h1]; exact hu f (hl f (List.mem_cons_self _ _))
      · exact hl g (List.mem_cons_of_mem _ h1)
    | false =>
      rw [updateFirst_cons_neg hp] at hg
      rcases List.mem_cons.mp hg with h1 | h1
      · rw [h1]; exact hl f (List.mem_cons_self _ _)
      · exact ih (fun f2 hf2 => hl f2 (List.mem_cons_of_mem _ hf2)) g h1

/-- One append preserves the capacity bound: the non-split branch grows the
current bucket only when the result stays within the page size, and the
split branch adds no member anywhere. -/
lemma append_capBound (ing : TSMongoDBIngestor) (member : Member) (st : DBState) (P : Nat)
    (hP : ing._pageSize = some P) (hinv : capBound P st) :
    capBound P (append ing member st).state := by
  cases hm : mostRecentFrag ing.sdsStreamIdentifier st.index with
  | none =>
    have hg : getMostRecentWindow ing st = .err .noBucketsFound st := by
      unfold getMostRecentWindow; rw [hm]
    unfold append
    rw [hg]
    exact hinv
  | some doc =>
    have hg : getMostRecentWindow ing st = .ok (documentToWindow doc) st := by
      unfold getMostRecentWindow; rw [hm]
    cases hf : findOneFrag ing.sdsStreamIdentifier (documentToWindow doc).identifier st.index with
    | none =>
      have hs : bucketSize ing (documentToWindow doc) st =
          .err (.windowNotFound (documentToWindow doc).identifier) st := by
        unfold bucketSize; rw [hf]
      unfold append
      rw [hg]
      simp only [hs]
      exact hinv
    | some curFrag =>
      have hs : bucketSize ing (documentToWindow doc) st = .ok curFrag.members.length st := by
        unfold bucketSize; rw [hf]
      cases hfull : isFull (pageSize ing) curFrag.members.length with
      | false =>
        have heq := append_nosplit_eq ing member st (documentToWindow doc)
          curFrag.members.length hg hs hfull
        rw [heq]
        intro g hg2
        have hg3 : g ∈ updateFirst
            (matchesBucket ing.sdsStreamIdentifier (documentToWindow doc).identifier)
            (pushMembers [member.id.value]) st.index := hg2
        rcases updateFirst_mem_cases hg3 with h1 | ⟨f2, hf2, hgf⟩
        · exact hinv g h1
        · have hfc : f2 = curFrag := by
            unfold findOneFrag at hf
            rw [hf] at hf2
            cases hf2
            rfl
          have hle : curFrag.members.length + 1 ≤ P := by
            unfold isFull pageSize at hfull
            rw [hP] at hfull
            simp at hfull
            omega
          rw [hgf, hfc]
          simp only [pushMembers, List.length_append, List.length_singleton]
          omega
      | true =>
        cases ht : ing._timestampPath with
        | none =>
          unfold append
          rw [hg]
          simp only [hs, hfull, if_true, ht]
          exact hinv
        | some tsp =>
          cases he : extractDate member.quads tsp with
          | error e =>
            unfold append
            rw [hg]
            simp only [hs, hfull, if_true, ht, he]
            exact hinv
          | ok d =>
            have heq := append_split_eq ing member st (documentToWindow doc)
              curFrag.members.length tsp d hg hs hfull ht he
            rw [heq]
            have hQ0 : ∀ f ∈ st.index ++ [(⟨toString d, ing.sdsStreamIdentifier, true,
                [], 0, [], none, none⟩ : MongoFragment)], f.members.length ≤ P := by
              intro f hf2
              rcases List.mem_append.mp hf2 with h1 | h1
              · exact hinv f h1
              · simp at h1
                rw [h1]
                simp
            have hQ1 := updateFirst_forall
              (p := matchesBucket ing.sdsStreamIdentifier (toString d))
              (u := setWindowParams { identifier := toString d, start := some d })
              (fun f hq => by
                simpa [members_setWindowParams
                  ({ identifier := toString d, start := some d } : Window) f] using hq)
              _ hQ0
            have hQ2 := updateFirst_forall
              (p := matchesBucket ing.sdsStreamIdentifier "")
              (u := pushRelations [⟨.GreaterThanOrEqualTo, d, tsp, toString d⟩])
              (fun f hq => hq) _ hQ1
            have hQ3 := updateFirst_forall
              (p := matchesBucket ing.sdsStreamIdentifier
                (documentToWindow doc).identifier)
              (u := setWindowParams { documentToWindow doc with endTS := some d })
              (fun f hq => by
                simpa [members_setWindowParams
                  { documentToWindow doc with endTS := some d } f] using hq)
              _ hQ2
            have hQ4 := updateFirst_forall
              (p := matchesBucket ing.sdsStreamIdentifier "")
              (u := pushRelations [⟨.LessThan, d, tsp,
                (documentToWindow doc).identifier⟩])
              (fun f hq => hq) _ hQ3
            intro g hg2
            exact hQ4 g hg2

/-- The capacity bound is preserved over the whole sequence of appends done
by publish. -/
lemma publish_capBound (ing : TSMongoDBIngestor) (P : Nat) (hP : ing._pageSize = some P) :
    ∀ (members : List Member) (st : DBState), capBound P st →
      capBound P (publish ing members st).state := by
  intro members
  induction members with
  | nil => intro st h; exact h
  | cons m ms ih =>
    intro st h
    unfold publish
    cases ha : append ing m st with
    | err e st1 =>
      have h1 := append_capBound ing m st P hP h
      rw [ha] at h1
      exact h1
    | ok a st1 =>
      have h1 := append_capBound ing m st P hP h
      rw [ha] at h1
      exact ih st1 h1

/-- C2: for any sequence of members ingested by publish with a configured
page size P, starting from a store whose buckets all satisfy the bound,
every closed bucket of the resulting store has at most P members — the
capacity check happens before insertion, so no append pushes a bucket past
P. -/
theorem publish_capacity (ing : TSMongoDBIngestor) (P : Nat) (members : List Member)
    (st st2 : DBState)
    (hP : ing._pageSize = some P)
    (hinv : ∀ f ∈ st.index, f.members.length ≤ P)
    (hrun : publish ing members st = .ok () st2) :
    ∀ f ∈ st2.index, f.endTS.isSome = true → f.members.length ≤ P := by
  have h := publish_capBound ing P hP members st hinv
  rw [hrun] at h
  exact fun f hf _ => h f hf

/-- The store after publishing one member on top of the two bootstrap
buckets, used as the capacity witness. -/
def stC : DBState :=
  { metaColl := [], dataColl := [{ id := "m1", data := [("p", 9)] }],
    index := [rootFragA, { winFragA with members := ["m1"] }] }

theorem publish_capacity_witness :
    ingB._pageSize = some 2 ∧
    (∀ f ∈ stA.index, f.members.length ≤ 2) ∧
    publish ingB [memberA] stA = .ok () stC ∧
    ∀ f ∈ stC.index, f.endTS.isSome = true → f.members.length ≤ 2 :=
  ⟨rfl, by decide, by decide,
   publish_capacity ingB 2 [memberA] stA stC rfl (by decide) (by decide)⟩

end LDESTS
